import Mathlib

/-!
Verification of the Structural Dependency & Coupling Metrics Engine of the
AutoDep repository against its natural-language specification.

The engine is `app.DependencyExtractor.analyzeProject` (Java): a two-pass
analysis that builds a registry of internal classes, resolves type references
(`resolveType`), collects per-class outgoing dependency edges, aggregates
incoming edges, and ranks classes by total coupling.  The per-class metric
prototype `app.MetricCollector` (`calculateDIT`, `calculateLCOM`) is embedded
as well.

The embedding is shallow: every Java method is translated into an executable
Lean function over explicit data.  `java.util.HashMap` / `java.util.HashSet`
are modelled by insertion-ordered association lists together with an explicit
iteration-order function that reproduces Java's bucket-table traversal
(`String.hashCode`, the hash spread `h ^ (h >>> 16)`, table index
`hash & (capacity - 1)`, buckets visited in ascending index, entries inside a
bucket in insertion order).  This iteration model is exact for tables that
never treeify a bucket (fewer than 8 colliding entries per bucket), which
holds for every concrete input used below and does not affect the
permutation-invariant theorems.
-/

/-- Java `String.hashCode`: `h = 31*h + c` over the UTF-16 code units of the
string, in 32-bit integer arithmetic.  All strings appearing in this
development are ASCII, where `Char.toNat` coincides with the UTF-16 unit. -/
def jHash (s : String) : Nat :=
  s.data.foldl (fun h c => (h * 31 + c.toNat) % 4294967296) 0

/-- Java `HashMap.hash(key)`: `h ^ (h >>> 16)` on the 32-bit hash. -/
def hashSpread (h : Nat) : Nat := h ^^^ (h / 65536)

/-- Bucket index of a key in a table of capacity `cap` (a power of two):
Java computes `(cap - 1) & hash`, i.e. `hash % cap`. -/
def tableIndex (cap : Nat) (s : String) : Nat := hashSpread (jHash s) % cap

/-- Capacity-growth loop of `java.util.HashMap`: starting from the default
capacity 16, double while the entry count exceeds the load threshold
`0.75 * capacity` (exact in integers because the capacity is a multiple
of 4).  The fuel argument bounds the number of doublings. -/
def capFrom : Nat → Nat → Nat → Nat
  | 0, cap, _ => cap
  | fuel + 1, cap, n => if 4 * n ≤ 3 * cap then cap else capFrom fuel (2 * cap) n

/-- Final table capacity of a `HashMap`/`HashSet` holding `n` entries. -/
def hashCapacity (n : Nat) : Nat := capFrom n 16 n

/-- Iteration order of a Java hash table: buckets in ascending index,
entries of one bucket in insertion order. -/
def reorderByTable (cap : Nat) (key : α → String) (l : List α) : List α :=
  (List.range cap).flatMap (fun b => l.filter (fun e => tableIndex cap (key e) == b))

/-- Entry-iteration order of a `HashMap` modelled by the insertion-ordered
association list `m` (`m.length` is its size, keys being distinct). -/
def entryIterOrder (m : List (String × α)) : List (String × α) :=
  reorderByTable (hashCapacity m.length) Prod.fst m

/-- `HashMap.get`: the value stored under `k`, if present. -/
def mapGet? : List (String × α) → String → Option α
  | [], _ => none
  | (k0, v0) :: rest, k => if k0 = k then some v0 else mapGet? rest k

/-- `HashMap.containsKey`. -/
def containsKey (m : List (String × α)) (k : String) : Bool :=
  (mapGet? m k).isSome

/-- `HashMap.put`: replace the value of an existing key in place (the node
keeps its position in the table), or append a new entry. -/
def mapPut : List (String × α) → String → α → List (String × α)
  | [], k, v => [(k, v)]
  | (k0, v0) :: rest, k, v =>
    if k0 = k then (k0, v) :: rest else (k0, v0) :: mapPut rest k v

/-- `HashSet.add`: a set modelled as its insertion-ordered element list. -/
def addIfAbsent (s : List String) (x : String) : List String :=
  if s.contains x then s else s ++ [x]

/-- Iteration order of a `HashSet` given its insertion-ordered element list
(`new ArrayList<>(set)` enumerates the set in this order). -/
def hashSetOrder (l : List String) : List String :=
  reorderByTable (hashCapacity l.length) id l

/-- One method declaration, as the AST facts the engine reads from it:
`getNameAsString`, `getType().asString()`, parameter type strings, and the
names found in the body (`FieldAccessExpr`, `MethodCallExpr`,
`ObjectCreationExpr` in `findAll` order). -/
structure JMethod where
  name : String
  returnType : String
  paramTypes : List String
  fieldAccesses : List String
  methodCalls : List String
  constructedTypes : List String
deriving DecidableEq

/-- One `ClassOrInterfaceDeclaration`: simple name, modifiers, raw supertype
and interface names (`getNameAsString`), field declared-type strings
(`getCommonType().asString()`, one per `FieldDeclaration`), and methods. -/
structure JClass where
  name : String
  isInterface : Bool
  isAbstract : Bool
  extendedTypes : List String
  implementedTypes : List String
  fields : List String
  methods : List JMethod
deriving DecidableEq

/-- One successfully parsed source file: relative path, package name (empty
string when absent), import names (`getNameAsString`, declaration order), and
the class declarations in `findAll` (pre-order) sequence.  Files that fail to
parse are skipped identically in both passes of the engine and are therefore
not part of the input. -/
structure JFile where
  path : String
  packageName : String
  imports : List String
  classes : List JClass
deriving DecidableEq

/-- `DependencyExtractor.ClassInfo`. -/
structure ClassInfo where
  className : String
  simpleName : String
  packageName : String
  filePath : String
  isInterface : Bool
  isAbstract : Bool
  methodCount : Nat
  fieldCount : Nat
  dependsOn : List String
  dependedByClasses : List String
  couplingOut : Nat
  couplingIn : Nat
deriving DecidableEq

/-- `ClassInfo.getTotalCoupling()`. -/
def getTotalCoupling (c : ClassInfo) : Nat := c.couplingOut + c.couplingIn

/-- `DependencyExtractor.AnalysisResult`.  `projectGroupId` is a nullable
`String` in Java, hence an `Option`; `averageCoupling` (a `double` obtained
as an exact integer quotient) is modelled as a rational. -/
structure AnalysisResult where
  projectName : String
  projectPath : String
  projectGroupId : Option String
  totalClasses : Nat
  averageCoupling : Rat
  maxCoupling : Nat
  highlyCoupledClasses : Nat
  classes : List ClassInfo
deriving DecidableEq

/-- Java `String.trim`: drop leading and trailing characters with code point
at most U+0020. -/
def javaTrim (s : String) : String :=
  ⟨((s.data.dropWhile (fun c => c.toNat ≤ 32)).reverse.dropWhile
      (fun c => c.toNat ≤ 32)).reverse⟩

/-- `typeName.replaceAll("<.*>", "")`: the greedy regex removes everything
from the first candidate opening angle bracket through the last closing angle
bracket of the string (when such a pair exists), and nothing else, because
the remainder after the last closing bracket can contain no further match. -/
def stripGenerics (s : String) : String :=
  match s.data.findIdx? (fun c => c = '<') with
  | none => s
  | some i =>
    match s.data.reverse.findIdx? (fun c => c = '>') with
    | none => s
    | some r =>
      let j := s.data.length - 1 - r
      if i < j then ⟨s.data.take i ++ s.data.drop (j + 1)⟩ else s

/-- Character-level worker for `String.replace("[]", "")`: delete every
non-overlapping occurrence of the two-character sequence, scanning left to
right, exactly as Java's `String.replace` does. -/
def removeBracketPairs : List Char → List Char
  | '[' :: ']' :: rest => removeBracketPairs rest
  | c :: rest => c :: removeBracketPairs rest
  | [] => []

/-- `typeName.replace("[]", "")`. -/
def removeArrayBrackets (s : String) : String :=
  ⟨removeBracketPairs s.data⟩

/-- Java `String.startsWith`, as a character-list prefix test. -/
def javaStartsWith (s p : String) : Bool :=
  p.data.isPrefixOf s.data

/-- Java `String.endsWith`, as a character-list suffix test. -/
def javaEndsWith (s p : String) : Bool :=
  p.data.reverse.isPrefixOf s.data.reverse

/-- The normalization prefix of `DependencyExtractor.resolveType`:
strip generic arguments, trim, strip array brackets, trim. -/
def normalizeTypeName (s : String) : String :=
  javaTrim (removeArrayBrackets (javaTrim (stripGenerics s)))

/-- `DependencyExtractor.isPrimitive`: the explicit exclusion list of
primitive keywords, `void`, `String` and `Object`. -/
def isPrimitive (t : String) : Bool :=
  t == "int" || t == "long" || t == "double" ||
  t == "float" || t == "boolean" || t == "char" ||
  t == "byte" || t == "short" || t == "void" ||
  t == "String" || t == "Object"

/-- `DependencyExtractor.resolveType`: normalize the raw name; return null
for excluded names (the primitive list, or any name starting with `java.` or
`javax.`); otherwise try the name itself as a registry key, then the
package-qualified name (the bare name again when the package is empty), then
the first import whose name ends with `"." + name` and is a registry key. -/
def resolveType (typeName currentPackage : String) (imports : List String)
    (m : List (String × α)) : Option String :=
  let t := normalizeTypeName typeName
  if isPrimitive t || javaStartsWith t "java." || javaStartsWith t "javax." then
    none
  else if containsKey m t then
    some t
  else
    let withPackage :=
      if currentPackage.isEmpty then t else currentPackage ++ "." ++ t
    if containsKey m withPackage then
      some withPackage
    else
      imports.find? (fun imp => javaEndsWith imp ("." ++ t) && containsKey m imp)

/-- The fully qualified class name computed in `analyzeProject`:
`package + "." + simpleName`, or the simple name when the package is empty. -/
def fqcn (pkg name : String) : String :=
  if pkg.isEmpty then name else pkg ++ "." ++ name

/-- The `ClassInfo` created for one class declaration during pass 1 of
`analyzeProject` (registry construction). -/
def initClassInfo (filePath pkg : String) (c : JClass) : ClassInfo where
  className := fqcn pkg c.name
  simpleName := c.name
  packageName := pkg
  filePath := filePath
  isInterface := c.isInterface
  isAbstract := c.isAbstract
  methodCount := c.methods.length
  fieldCount := c.fields.length
  dependsOn := []
  dependedByClasses := []
  couplingOut := 0
  couplingIn := 0

/-- Pass 1 of `analyzeProject`: build the registry of internal classes; on a
fully-qualified-name collision the later declaration overwrites the earlier
(`classMap.put`, last write wins). -/
def buildClassMap (files : List JFile) : List (String × ClassInfo) :=
  files.foldl
    (fun m f =>
      f.classes.foldl
        (fun m c => mapPut m (fqcn f.packageName c.name) (initClassInfo f.path f.packageName c))
        m)
    []

/-- One guarded insertion of pass 2: resolve a raw type name and add it to
the dependency set when it resolves and is a registry key
(`if (typeName != null && classMap.containsKey(typeName)) dependencies.add(typeName)`). -/
def addResolved (m : List (String × ClassInfo)) (f : JFile)
    (s : List String) (raw : String) : List String :=
  match resolveType raw f.packageName f.imports m with
  | some r => if containsKey m r then addIfAbsent s r else s
  | none => s

/-- The dependency `HashSet` computed for one class in pass 2 of
`analyzeProject`, as its insertion-ordered element list: internal imports,
then resolved supertypes, implemented interfaces, field types, and per
method the return type followed by the parameter types.  Object-creation
expressions inside method bodies are never inspected by this pass. -/
def collectDepsSetList (f : JFile) (c : JClass)
    (m : List (String × ClassInfo)) : List String :=
  let s := f.imports.foldl
    (fun s imp => if containsKey m imp then addIfAbsent s imp else s) []
  let s := c.extendedTypes.foldl (addResolved m f) s
  let s := c.implementedTypes.foldl (addResolved m f) s
  let s := c.fields.foldl (addResolved m f) s
  c.methods.foldl
    (fun s meth =>
      (meth.paramTypes.foldl (addResolved m f) (addResolved m f s meth.returnType)))
    s

/-- `new ArrayList<>(dependencies)`: the dependency list stored into
`ClassInfo.dependsOn`, in `HashSet` iteration order. -/
def collectDeps (f : JFile) (c : JClass)
    (m : List (String × ClassInfo)) : List String :=
  hashSetOrder (collectDepsSetList f c m)

/-- Pass 2 of `analyzeProject`, body for one class declaration: look up its
record (`if (classInfo == null) return`), then store the collected
dependency list and `couplingOut = dependencies.size()`. -/
def pass2Step (f : JFile) (c : JClass) (m : List (String × ClassInfo)) :
    List (String × ClassInfo) :=
  match mapGet? m (fqcn f.packageName c.name) with
  | none => m
  | some ci =>
    let deps := collectDeps f c m
    mapPut m (fqcn f.packageName c.name)
      { ci with dependsOn := deps, couplingOut := deps.length }

/-- Pass 2 of `analyzeProject`: run the per-class body over every file and
every class declaration. -/
def pass2 (files : List JFile) (m0 : List (String × ClassInfo)) :
    List (String × ClassInfo) :=
  files.foldl (fun m f => f.classes.foldl (fun m c => pass2Step f c m) m) m0

/-- One step of pass 3: `depClass.dependedByClasses.add(classInfo.className);
depClass.couplingIn++` for a single dependency name, when it is in the
registry. -/
def incIn (m : List (String × ClassInfo)) (dep nm : String) :
    List (String × ClassInfo) :=
  match mapGet? m dep with
  | none => m
  | some d =>
    mapPut m dep
      { d with dependedByClasses := d.dependedByClasses ++ [nm],
               couplingIn := d.couplingIn + 1 }

/-- Pass 3 body for one class: walk its (immutable) `dependsOn` list and
credit each target.  The `ClassInfo` is fetched once, as in the Java
for-each; its `dependsOn` and `className` are never mutated by pass 3. -/
def aggStep (m : List (String × ClassInfo)) (k : String) :
    List (String × ClassInfo) :=
  match mapGet? m k with
  | none => m
  | some ci => ci.dependsOn.foldl (fun m dep => incIn m dep ci.className) m

/-- Pass 3 of `analyzeProject`: iterate `classMap.values()` in hash-table
order (the iteration sequence is fixed before the loop; the loop mutates
only values, never the key structure). -/
def pass3 (m : List (String × ClassInfo)) : List (String × ClassInfo) :=
  ((entryIterOrder m).map Prod.fst).foldl aggStep m

/-- Comparator order of `classList.sort((a, b) ->
Integer.compare(b.getTotalCoupling(), a.getTotalCoupling()))` on
index-tagged elements.  Java `List.sort` is stable; the stable descending
sort is the unique permutation that is sorted by the comparator and keeps
elements with equal keys in input order, i.e. the sort of the index-tagged
list by this lexicographic relation (total coupling descending, original
position ascending). -/
def sortRel (p q : Nat × ClassInfo) : Prop :=
  getTotalCoupling q.2 < getTotalCoupling p.2 ∨
    (getTotalCoupling p.2 = getTotalCoupling q.2 ∧ p.1 ≤ q.1)

instance : DecidableRel sortRel := fun p q => by
  unfold sortRel; infer_instance

instance : IsTotal (Nat × ClassInfo) sortRel where
  total p q := by unfold sortRel; omega

instance : IsTrans (Nat × ClassInfo) sortRel where
  trans p q r := by unfold sortRel; omega

/-- The stable descending-by-total-coupling sort performed on the class
list. -/
def sortClasses (l : List ClassInfo) : List ClassInfo :=
  (l.enum.insertionSort sortRel).map Prod.snd

/-- `(int) Math.ceil(classList.size() * 0.2)`.  For every `int`-ranged `n`
this equals `⌈n / 5⌉`: the Java double literal `0.2` is exactly
`(2^54 + 1) / (5 * 2^54)`, so the product `n * 0.2` is `n/5 + n/(5*2^54)`
before rounding; for `n` divisible by 5 the rounding error `n/2^54` is below
half an ulp of `n/5`, so the product rounds to exactly `n/5`, and otherwise
the product stays strictly between the neighbouring integers, so the
ceiling is `⌈n / 5⌉` in both cases. -/
def ceilTopFifth (n : Nat) : Nat := (n + 4) / 5

/-- Outcome of reading `pom.xml` before the analysis: the file may be
absent, may fail to read or parse (the warning branch), or yields a Maven
model with nullable name, artifact id, group id and parent group id. -/
inductive PomOutcome where
  | absent : PomOutcome
  | unreadable : PomOutcome
  | parsed (name : Option String) (artifactId : String)
      (groupId : Option String) (parentGroupId : Option String) : PomOutcome
deriving DecidableEq

/-- `projectName` after the manifest block of `analyzeProject`: the
directory name unless the pom parses, in which case `model.getName()` with
`getArtifactId()` as fallback. -/
def projectNameOf (dirName : String) : PomOutcome → String
  | .parsed name artifactId _ _ => name.getD artifactId
  | _ => dirName

/-- `projectGroupId` after the manifest block: `model.getGroupId()`, falling
back to the parent group id, and remaining null when the pom is absent or
unreadable. -/
def projectGroupIdOf : PomOutcome → Option String
  | .parsed _ _ groupId parentGroupId => groupId.or parentGroupId
  | _ => none

/-- `DependencyExtractor.analyzeProject`, for a project whose eligible
source files parse into `files` (files that fail to parse are skipped by
both passes and carry no information).  `dirName` is
`projectDir.getName()` and `absPath` is `projectDir.getAbsolutePath()`. -/
def analyzeProject (dirName absPath : String) (pom : PomOutcome)
    (files : List JFile) : AnalysisResult :=
  let m1 := buildClassMap files
  let m2 := pass2 files m1
  let m3 := pass3 m2
  let classList := sortClasses ((entryIterOrder m3).map Prod.snd)
  let totalCoupling := (classList.map getTotalCoupling).sum
  { projectName := projectNameOf dirName pom
    projectPath := absPath
    projectGroupId := projectGroupIdOf pom
    totalClasses := classList.length
    averageCoupling :=
      if classList.isEmpty then 0 else (totalCoupling : Rat) / classList.length
    maxCoupling := (classList.map getTotalCoupling).foldl max 0
    highlyCoupledClasses :=
      (classList.take (ceilTopFifth classList.length)).countP
        (fun c => 0 < getTotalCoupling c)
    classes := classList }

/-- `MetricCollector.calculateDIT`: `cu.findFirst(ClassOrInterfaceDeclaration)`
is the first class declaration of the file; the metric is 1 exactly when its
extended-types list is non-empty, and 0 otherwise (also for a file without
classes). -/
def calculateDIT (classes : List JClass) : Nat :=
  match classes.head? with
  | some c => if c.extendedTypes.isEmpty then 0 else 1
  | none => 0

/-- Unordered index pairs `(i, j)` with `i < j` of a list, in the order of
the double loop of `calculateLCOM`. -/
def listPairs : List α → List (α × α)
  | [] => []
  | x :: xs => xs.map (fun y => (x, y)) ++ listPairs xs

/-- Emptiness test of `intersection = new HashSet<>(fields1);
intersection.retainAll(fields2)`: no element in common. -/
def disjointFields (xs ys : List String) : Bool :=
  xs.all (fun x => !(ys.contains x))

/-- `p` of `calculateLCOM`: pairs of methods accessing no field in common. -/
def lcomP (m : List (String × List String)) : Nat :=
  (listPairs m).countP (fun pr => disjointFields pr.1.2 pr.2.2)

/-- `q` of `calculateLCOM`: pairs of methods sharing at least one field. -/
def lcomQ (m : List (String × List String)) : Nat :=
  (listPairs m).countP (fun pr => !(disjointFields pr.1.2 pr.2.2))

/-- `MetricCollector.calculateLCOM` on the method-to-accessed-fields map
(association list with distinct method names; `p` and `q` are invariant
under the key-iteration order of the backing `HashMap`, so the insertion
order is used).  Returns `p - q` when positive, else 0, as a Java `int`. -/
def calculateLCOM (m : List (String × List String)) : Int :=
  if m.length ≤ 1 then 0
  else if lcomQ m < lcomP m then (lcomP m : Int) - lcomQ m else 0


theorem mapGet?_mapPut_self (m : List (String × α)) (k : String) (v : α) :
    mapGet? (mapPut m k v) k = some v := by
  induction m with
  | nil => simp [mapPut, mapGet?]
  | cons e rest ih =>
    obtain ⟨k0, v0⟩ := e
    by_cases h : k0 = k
    · simp [mapPut, mapGet?, h]
    · simp [mapPut, mapGet?, h, ih]

theorem mapGet?_mapPut_ne (m : List (String × α)) (k k1 : String) (v : α)
    (h : k1 ≠ k) : mapGet? (mapPut m k v) k1 = mapGet? m k1 := by
  have hne : k ≠ k1 := fun hc => h hc.symm
  induction m with
  | nil => simp [mapPut, mapGet?, hne]
  | cons e rest ih =>
    obtain ⟨k0, v0⟩ := e
    by_cases h0 : k0 = k
    · subst h0
      simp only [mapPut, if_pos rfl]
      simp [mapGet?, hne]
    · simp only [mapPut, if_neg h0]
      by_cases h1 : k0 = k1 <;> simp [mapGet?, h1, ih]

theorem containsKey_iff_mem_keys (m : List (String × α)) (k : String) :
    containsKey m k = true ↔ k ∈ m.map Prod.fst := by
  induction m with
  | nil => simp [containsKey, mapGet?]
  | cons e rest ih =>
    obtain ⟨k0, v0⟩ := e
    by_cases h : k0 = k
    · subst h
      simp [containsKey, mapGet?]
    · rw [List.map_cons, List.mem_cons]
      constructor
      · intro hc
        simp only [containsKey, mapGet?, if_neg h] at hc
        exact Or.inr (ih.mp hc)
      · intro hc
        rcases hc with hc | hc
        · exact absurd hc.symm h
        · simp only [containsKey, mapGet?, if_neg h]
          exact ih.mpr hc

theorem mapGet?_eq_some_mem (m : List (String × α)) (k : String) (v : α)
    (h : mapGet? m k = some v) : (k, v) ∈ m := by
  induction m with
  | nil => simp [mapGet?] at h
  | cons e rest ih =>
    obtain ⟨k0, v0⟩ := e
    by_cases h0 : k0 = k
    · subst h0
      simp [mapGet?] at h
      rw [← h]
      exact List.mem_cons_self _ _
    · simp only [mapGet?, if_neg h0] at h
      exact List.mem_cons_of_mem _ (ih h)

theorem mem_mapGet?_of_nodup (m : List (String × α)) (e : String × α)
    (hnd : (m.map Prod.fst).Nodup) (h : e ∈ m) : mapGet? m e.1 = some e.2 := by
  induction m with
  | nil => simp at h
  | cons e0 rest ih =>
    obtain ⟨k0, v0⟩ := e0
    rw [List.map_cons, List.nodup_cons] at hnd
    rcases List.mem_cons.mp h with h | h
    · subst h
      simp [mapGet?]
    · have hne : k0 ≠ e.1 := by
        intro hk
        exact hnd.1 (by rw [hk]; exact List.mem_map.mpr ⟨e, h, rfl⟩)
      simp only [mapGet?, if_neg hne]
      exact ih hnd.2 h

theorem mem_mapPut (m : List (String × α)) (k : String) (v : α)
    (e : String × α) (h : e ∈ mapPut m k v) : e = (k, v) ∨ e ∈ m := by
  induction m with
  | nil =>
    simp [mapPut] at h
    exact Or.inl h
  | cons e0 rest ih =>
    obtain ⟨k0, v0⟩ := e0
    by_cases h0 : k0 = k
    · subst h0
      simp only [mapPut, if_pos rfl] at h
      rcases List.mem_cons.mp h with h | h
      · exact Or.inl h
      · exact Or.inr (List.mem_cons_of_mem _ h)
    · simp only [mapPut, if_neg h0] at h
      rcases List.mem_cons.mp h with h | h
      · exact Or.inr (by rw [h]; exact List.mem_cons_self _ _)
      · rcases ih h with h | h
        · exact Or.inl h
        · exact Or.inr (List.mem_cons_of_mem _ h)

theorem keys_mapPut_of_containsKey (m : List (String × α)) (k : String) (v : α)
    (h : containsKey m k = true) :
    (mapPut m k v).map Prod.fst = m.map Prod.fst := by
  induction m with
  | nil => simp [containsKey, mapGet?] at h
  | cons e0 rest ih =>
    obtain ⟨k0, v0⟩ := e0
    by_cases h0 : k0 = k
    · simp [mapPut, h0]
    · simp only [containsKey, mapGet?, if_neg h0] at h
      simp [mapPut, h0, ih h]

theorem nodup_keys_mapPut (m : List (String × α)) (k : String) (v : α)
    (hnd : (m.map Prod.fst).Nodup) : ((mapPut m k v).map Prod.fst).Nodup := by
  induction m with
  | nil => simp [mapPut]
  | cons e0 rest ih =>
    obtain ⟨k0, v0⟩ := e0
    rw [List.map_cons, List.nodup_cons] at hnd
    by_cases h0 : k0 = k
    · subst h0
      have hput : mapPut ((k0, v0) :: rest) k0 v = (k0, v) :: rest := by
        simp [mapPut]
      rw [hput, List.map_cons, List.nodup_cons]
      exact ⟨hnd.1, hnd.2⟩
    · simp only [mapPut, if_neg h0, List.map_cons, List.nodup_cons]
      refine ⟨fun hmem => ?_, ih hnd.2⟩
      rcases List.mem_map.mp hmem with ⟨e1, he1, hfst⟩
      rcases mem_mapPut rest k v e1 he1 with h | h
      · exact h0 (by rw [← hfst, h])
      · exact hnd.1 (by rw [← hfst]; exact List.mem_map.mpr ⟨e1, h, rfl⟩)

theorem capFrom_ge (fuel cap n : Nat) : cap ≤ capFrom fuel cap n := by
  induction fuel generalizing cap with
  | zero => simp [capFrom]
  | succ fuel ih =>
    by_cases h : 4 * n ≤ 3 * cap
    · simp [capFrom, h]
    · simp only [capFrom, if_neg h]
      exact le_trans (by omega) (ih (2 * cap))

theorem hashCapacity_pos (n : Nat) : 0 < hashCapacity n :=
  lt_of_lt_of_le (by norm_num) (capFrom_ge n 16 n)

theorem sum_map_range_ite (n i c : Nat) (h : i < n) :
    ((List.range n).map (fun b => if i = b then c else 0)).sum = c := by
  induction n with
  | zero => omega
  | succ n ih =>
    rw [List.range_succ, List.map_append, List.sum_append]
    by_cases hi : i = n
    · subst hi
      have hz : ((List.range i).map (fun b => if i = b then c else 0)).sum = 0 := by
        rw [List.sum_eq_zero]
        intro x hx
        rcases List.mem_map.mp hx with ⟨b, hb, hbx⟩
        rw [List.mem_range] at hb
        rw [← hbx, if_neg (by omega)]
      simp [hz]
    · have hlt : i < n := by omega
      simp [ih hlt, hi]

theorem count_filter_pred [DecidableEq α] (p : α → Bool) (x : α) (l : List α) :
    List.count x (l.filter p) = if p x then List.count x l else 0 := by
  induction l with
  | nil => simp
  | cons a l ih =>
    by_cases ha : p a
    · rw [List.filter_cons_of_pos ha]
      by_cases hax : a = x
      · subst hax
        simp [List.count_cons_self, ih, ha]
      · rw [List.count_cons_of_ne (fun hx => hax hx.symm),
            List.count_cons_of_ne (fun hx => hax hx.symm), ih]
    · rw [List.filter_cons_of_neg (by simpa using ha)]
      by_cases hax : a = x
      · subst hax
        simp [ih, ha]
      · rw [List.count_cons_of_ne (fun hx => hax hx.symm), ih]

theorem reorderByTable_perm [DecidableEq α] (cap : Nat) (hcap : 0 < cap)
    (key : α → String) (l : List α) : (reorderByTable cap key l).Perm l := by
  rw [List.perm_iff_count]
  intro x
  rw [reorderByTable, List.count_flatMap]
  have hmap : (List.range cap).map
        (List.count x ∘ fun b => l.filter (fun e => tableIndex cap (key e) == b))
      = (List.range cap).map
        (fun b => if tableIndex cap (key x) = b then List.count x l else 0) := by
    refine List.map_congr_left (fun b _ => ?_)
    simp only [Function.comp]
    rw [count_filter_pred]
    by_cases hb : tableIndex cap (key x) = b <;> simp [hb]
  rw [hmap]
  exact sum_map_range_ite cap (tableIndex cap (key x)) (List.count x l)
    (by unfold tableIndex; exact Nat.mod_lt _ hcap)

theorem entryIterOrder_perm [DecidableEq α] (m : List (String × α)) :
    (entryIterOrder m).Perm m :=
  reorderByTable_perm _ (hashCapacity_pos _) _ _

theorem hashSetOrder_perm (l : List String) : (hashSetOrder l).Perm l :=
  reorderByTable_perm _ (hashCapacity_pos _) _ _

theorem mem_addIfAbsent (s : List String) (x a : String) :
    a ∈ addIfAbsent s x ↔ a ∈ s ∨ a = x := by
  by_cases hc : s.contains x
  · have hx : x ∈ s := by
      simpa using hc
    simp only [addIfAbsent, if_pos hc]
    constructor
    · exact Or.inl
    · rintro (h | h)
      · exact h
      · rw [h]; exact hx
  · simp only [addIfAbsent, if_neg hc, List.mem_append, List.mem_singleton]

theorem mem_foldl_grow {β : Type} (step : List String → β → List String)
    (G : β → String → Prop)
    (hstep : ∀ s x a, a ∈ step s x ↔ a ∈ s ∨ G x a)
    (l : List β) (s : List String) (a : String) :
    a ∈ l.foldl step s ↔ a ∈ s ∨ ∃ x ∈ l, G x a := by
  induction l generalizing s with
  | nil => simp
  | cons y l ih =>
    rw [List.foldl_cons, ih, hstep]
    constructor
    · rintro ((h | h) | ⟨x, hx, hG⟩)
      · exact Or.inl h
      · exact Or.inr ⟨y, List.mem_cons_self _ _, h⟩
      · exact Or.inr ⟨x, List.mem_cons_of_mem _ hx, hG⟩
    · rintro (h | ⟨x, hx, hG⟩)
      · exact Or.inl (Or.inl h)
      · rcases List.mem_cons.mp hx with hxy | hx
        · exact Or.inl (Or.inr (hxy ▸ hG))
        · exact Or.inr ⟨x, hx, hG⟩

theorem foldl_nested {α β σ : Type} (l : List α) (sub : α → List β)
    (g : α → σ → β → σ) (s : σ) :
    l.foldl (fun s x => (sub x).foldl (g x) s) s
      = (l.flatMap (fun x => (sub x).map (fun y => (x, y)))).foldl
          (fun s p => g p.1 s p.2) s := by
  induction l generalizing s with
  | nil => simp
  | cons x l ih =>
    rw [List.foldl_cons, List.flatMap_cons, List.foldl_append, ih, List.foldl_map]

theorem mem_addResolved (m : List (String × ClassInfo)) (f : JFile)
    (s : List String) (raw a : String) :
    a ∈ addResolved m f s raw ↔
      a ∈ s ∨ (resolveType raw f.packageName f.imports m = some a ∧
               containsKey m a = true) := by
  unfold addResolved
  cases hres : resolveType raw f.packageName f.imports m with
  | none => simp
  | some r =>
    by_cases hk : containsKey m r = true
    · simp only [hk, if_true, mem_addIfAbsent, Option.some.injEq]
      constructor
      · rintro (h | h)
        · exact Or.inl h
        · exact Or.inr ⟨h.symm, h ▸ hk⟩
      · rintro (h | ⟨h, _⟩)
        · exact Or.inl h
        · exact Or.inr h.symm
    · simp only [Bool.not_eq_true] at hk
      simp only [hk, Bool.false_eq_true, if_false, Option.some.injEq]
      constructor
      · exact Or.inl
      · rintro (h | ⟨h, ha⟩)
        · exact h
        · rw [← h] at ha
          rw [ha] at hk
          cases hk

/-- Shorthand for "raw name `t` resolves to `a`, which is a registry key",
the guard of every resolver-based insertion in pass 2. -/
def resolvesToKey (f : JFile) (m : List (String × ClassInfo))
    (t a : String) : Prop :=
  resolveType t f.packageName f.imports m = some a ∧ containsKey m a = true

instance (f : JFile) (m : List (String × ClassInfo)) (t a : String) :
    Decidable (resolvesToKey f m t a) := by
  unfold resolvesToKey; infer_instance

theorem mem_importsFold (f : JFile) (m : List (String × ClassInfo)) (a : String) :
    a ∈ f.imports.foldl
        (fun s imp => if containsKey m imp then addIfAbsent s imp else s) [] ↔
      a ∈ f.imports ∧ containsKey m a = true := by
  have himp : ∀ (s : List String) (imp a1 : String),
      a1 ∈ (if containsKey m imp then addIfAbsent s imp else s) ↔
        a1 ∈ s ∨ (containsKey m imp = true ∧ a1 = imp) := by
    intro s imp a1
    by_cases hk : containsKey m imp = true
    · rw [if_pos hk, mem_addIfAbsent]
      constructor
      · rintro (h | h)
        · exact Or.inl h
        · exact Or.inr ⟨hk, h⟩
      · rintro (h | ⟨_, h⟩)
        · exact Or.inl h
        · exact Or.inr h
    · rw [if_neg hk]
      constructor
      · exact Or.inl
      · rintro (h | ⟨hc, _⟩)
        · exact h
        · exact absurd hc hk
  rw [mem_foldl_grow
      (fun s imp => if containsKey m imp then addIfAbsent s imp else s)
      (fun imp a2 => containsKey m imp = true ∧ a2 = imp) himp]
  simp only [List.not_mem_nil, false_or]
  constructor
  · rintro ⟨x, hx, hk, rfl⟩
    exact ⟨hx, hk⟩
  · rintro ⟨hx, hk⟩
    exact ⟨a, hx, hk, rfl⟩

theorem mem_resolveFold (f : JFile) (m : List (String × ClassInfo))
    (ts : List String) (s : List String) (a : String) :
    a ∈ ts.foldl (addResolved m f) s ↔
      a ∈ s ∨ ∃ t ∈ ts, resolvesToKey f m t a :=
  mem_foldl_grow (addResolved m f) (fun t a2 => resolvesToKey f m t a2)
    (fun s1 t a1 => mem_addResolved m f s1 t a1) ts s a

theorem mem_methodsFold (f : JFile) (m : List (String × ClassInfo))
    (ms : List JMethod) (s : List String) (a : String) :
    a ∈ ms.foldl
        (fun s mth => mth.paramTypes.foldl (addResolved m f)
          (addResolved m f s mth.returnType)) s ↔
      a ∈ s ∨ ∃ mth ∈ ms, resolvesToKey f m mth.returnType a ∨
        ∃ t ∈ mth.paramTypes, resolvesToKey f m t a := by
  refine mem_foldl_grow
    (fun (s1 : List String) (mth : JMethod) =>
      mth.paramTypes.foldl (addResolved m f) (addResolved m f s1 mth.returnType))
    (fun mth a2 => resolvesToKey f m mth.returnType a2 ∨
      ∃ t ∈ mth.paramTypes, resolvesToKey f m t a2) ?_ ms s a
  intro s1 mth a1
  rw [mem_resolveFold, mem_addResolved]
  simp only [or_assoc]
  rfl

theorem mem_collectDepsSetList (f : JFile) (c : JClass)
    (m : List (String × ClassInfo)) (a : String) :
    a ∈ collectDepsSetList f c m ↔
      (a ∈ f.imports ∧ containsKey m a = true) ∨
      (∃ t ∈ c.extendedTypes, resolvesToKey f m t a) ∨
      (∃ t ∈ c.implementedTypes, resolvesToKey f m t a) ∨
      (∃ t ∈ c.fields, resolvesToKey f m t a) ∨
      (∃ mth ∈ c.methods, resolvesToKey f m mth.returnType a ∨
        ∃ t ∈ mth.paramTypes, resolvesToKey f m t a) := by
  have hdef : collectDepsSetList f c m =
      c.methods.foldl
        (fun s mth => mth.paramTypes.foldl (addResolved m f)
          (addResolved m f s mth.returnType))
        (c.fields.foldl (addResolved m f)
          (c.implementedTypes.foldl (addResolved m f)
            (c.extendedTypes.foldl (addResolved m f)
              (f.imports.foldl
                (fun s imp => if containsKey m imp then addIfAbsent s imp else s)
                [])))) := rfl
  rw [hdef, mem_methodsFold, mem_resolveFold, mem_resolveFold, mem_resolveFold,
      mem_importsFold]
  simp only [or_assoc]

/-- Every element of the computed dependency list is present and is a
registry key. -/
theorem mem_collectDeps_iff (f : JFile) (c : JClass)
    (m : List (String × ClassInfo)) (a : String) :
    a ∈ collectDeps f c m ↔ a ∈ collectDepsSetList f c m :=
  (hashSetOrder_perm (collectDepsSetList f c m)).mem_iff

theorem collectDeps_subset_keys (f : JFile) (c : JClass)
    (m : List (String × ClassInfo)) (a : String)
    (h : a ∈ collectDeps f c m) : containsKey m a = true := by
  rw [mem_collectDeps_iff, mem_collectDepsSetList] at h
  rcases h with ⟨_, hk⟩ | ⟨t, _, _, hk⟩ | ⟨t, _, _, hk⟩ | ⟨t, _, _, hk⟩ |
    ⟨mth, _, ⟨_, hk⟩ | ⟨t, _, _, hk⟩⟩ <;> exact hk

/-- The (file, class declaration) pairs processed by each pass, in
processing order. -/
def filePairs (files : List JFile) : List (JFile × JClass) :=
  files.flatMap (fun f => f.classes.map (fun c => (f, c)))

theorem buildClassMap_eq_pairs (files : List JFile) :
    buildClassMap files = (filePairs files).foldl
      (fun m p => mapPut m (fqcn p.1.packageName p.2.name)
        (initClassInfo p.1.path p.1.packageName p.2)) [] :=
  foldl_nested files (fun f => f.classes)
    (fun f m c => mapPut m (fqcn f.packageName c.name)
      (initClassInfo f.path f.packageName c)) []

theorem pass2_eq_pairs (files : List JFile) (m0 : List (String × ClassInfo)) :
    pass2 files m0 = (filePairs files).foldl
      (fun m p => pass2Step p.1 p.2 m) m0 :=
  foldl_nested files (fun f => f.classes) (fun f m c => pass2Step f c m) m0

theorem entries_foldl_mapPut {α β : Type} (P : α → Prop) (l : List β)
    (key : β → String) (val : β → α) (m0 : List (String × α))
    (h0 : ∀ e ∈ m0, P e.2) (hv : ∀ b, P (val b)) :
    ∀ e ∈ l.foldl (fun m b => mapPut m (key b) (val b)) m0, P e.2 := by
  induction l generalizing m0 with
  | nil => exact h0
  | cons b l ih =>
    rw [List.foldl_cons]
    refine ih (mapPut m0 (key b) (val b)) (fun e he => ?_)
    rcases mem_mapPut m0 (key b) (val b) e he with h | h
    · rw [h]; exact hv b
    · exact h0 e h

theorem nodup_keys_foldl_mapPut {α β : Type} (l : List β)
    (key : β → String) (val : β → α) (m0 : List (String × α))
    (h0 : (m0.map Prod.fst).Nodup) :
    (((l.foldl (fun m b => mapPut m (key b) (val b)) m0)).map Prod.fst).Nodup := by
  induction l generalizing m0 with
  | nil => exact h0
  | cons b l ih =>
    rw [List.foldl_cons]
    exact ih _ (nodup_keys_mapPut m0 (key b) (val b) h0)

theorem buildClassMap_entries (files : List JFile) :
    ∀ e ∈ buildClassMap files,
      e.2.dependsOn = [] ∧ e.2.couplingOut = 0 ∧ e.2.couplingIn = 0 := by
  rw [buildClassMap_eq_pairs]
  refine entries_foldl_mapPut
    (fun ci => ci.dependsOn = [] ∧ ci.couplingOut = 0 ∧ ci.couplingIn = 0)
    (filePairs files)
    (fun p => fqcn p.1.packageName p.2.name)
    (fun p => initClassInfo p.1.path p.1.packageName p.2) [] (by simp) ?_
  intro p
  exact ⟨rfl, rfl, rfl⟩

theorem nodup_keys_buildClassMap (files : List JFile) :
    ((buildClassMap files).map Prod.fst).Nodup := by
  rw [buildClassMap_eq_pairs]
  exact nodup_keys_foldl_mapPut (filePairs files) _ _ [] (by simp)

/-- The invariant established by pass 2: every record's `couplingOut` is the
size of its `dependsOn` list, `couplingIn` is still zero, and every stored
dependency is a registry key. -/
def depsInvariant (K : List String) (m : List (String × ClassInfo)) : Prop :=
  ∀ e ∈ m, e.2.couplingOut = e.2.dependsOn.length ∧ e.2.couplingIn = 0 ∧
    ∀ d ∈ e.2.dependsOn, d ∈ K

theorem pass2Step_keys_invariant (f : JFile) (c : JClass) (K : List String)
    (m : List (String × ClassInfo)) (hK : m.map Prod.fst = K)
    (hinv : depsInvariant K m) :
    (pass2Step f c m).map Prod.fst = K ∧ depsInvariant K (pass2Step f c m) := by
  unfold pass2Step
  cases hget : mapGet? m (fqcn f.packageName c.name) with
  | none => exact ⟨hK, hinv⟩
  | some ci =>
    have hck : containsKey m (fqcn f.packageName c.name) = true := by
      unfold containsKey
      rw [hget]
      rfl
    constructor
    · rw [keys_mapPut_of_containsKey m _ _ hck, hK]
    · intro e he
      rcases mem_mapPut m _ _ e he with h | h
      · have hmem : (fqcn f.packageName c.name, ci) ∈ m :=
          mapGet?_eq_some_mem m _ ci hget
        have hci := hinv _ hmem
        rw [h]
        refine ⟨rfl, hci.2.1, fun d hd => ?_⟩
        have hdk : containsKey m d = true :=
          collectDeps_subset_keys f c m d hd
        rw [containsKey_iff_mem_keys, hK] at hdk
        exact hdk
      · exact hinv e h

theorem pass2_keys_invariant (files : List JFile) (K : List String)
    (m0 : List (String × ClassInfo)) (hK : m0.map Prod.fst = K)
    (hinv : depsInvariant K m0) :
    (pass2 files m0).map Prod.fst = K ∧ depsInvariant K (pass2 files m0) := by
  rw [pass2_eq_pairs]
  induction filePairs files generalizing m0 with
  | nil => exact ⟨hK, hinv⟩
  | cons p l ih =>
    rw [List.foldl_cons]
    have hstep := pass2Step_keys_invariant p.1 p.2 K m0 hK hinv
    exact ih _ hstep.1 hstep.2

/-- Sum of `couplingIn` over all registry records. -/
def sumIn (m : List (String × ClassInfo)) : Nat :=
  (m.map (fun e => e.2.couplingIn)).sum

/-- What pass 3 leaves untouched, relative to the pass-2 output `m2`:
the key structure, and every record's `dependsOn`, `couplingOut` and
`className`. -/
def pass3Pres (m2 m : List (String × ClassInfo)) : Prop :=
  m.map Prod.fst = m2.map Prod.fst ∧
  ∀ k, (mapGet? m k).map ClassInfo.dependsOn
          = (mapGet? m2 k).map ClassInfo.dependsOn ∧
       (mapGet? m k).map ClassInfo.couplingOut
          = (mapGet? m2 k).map ClassInfo.couplingOut ∧
       (mapGet? m k).map ClassInfo.className
          = (mapGet? m2 k).map ClassInfo.className

theorem pass3Pres_refl (m : List (String × ClassInfo)) : pass3Pres m m :=
  ⟨rfl, fun _ => ⟨rfl, rfl, rfl⟩⟩

theorem sumBy_mapPut {α : Type} (f : α → Nat) (m : List (String × α))
    (k : String) (v d : α) (hget : mapGet? m k = some d) :
    ((mapPut m k v).map (fun e => f e.2)).sum + f d
      = (m.map (fun e => f e.2)).sum + f v := by
  induction m with
  | nil => simp [mapGet?] at hget
  | cons e0 rest ih =>
    obtain ⟨k0, v0⟩ := e0
    by_cases h0 : k0 = k
    · subst h0
      have hval : v0 = d := by
        simpa [mapGet?] using hget
      subst hval
      have hput : mapPut ((k0, v0) :: rest) k0 v = (k0, v) :: rest := by
        simp [mapPut]
      rw [hput, List.map_cons, List.sum_cons, List.map_cons, List.sum_cons]
      simp only []
      omega
    · simp only [mapGet?, if_neg h0] at hget
      simp only [mapPut, if_neg h0, List.map_cons, List.sum_cons]
      have := ih hget
      omega

theorem sumIn_incIn (m : List (String × ClassInfo)) (dep nm : String)
    (h : containsKey m dep = true) :
    sumIn (incIn m dep nm) = sumIn m + 1 := by
  cases hget : mapGet? m dep with
  | none =>
    unfold containsKey at h
    rw [hget] at h
    cases h
  | some d =>
    have hstep : incIn m dep nm = mapPut m dep
        { d with dependedByClasses := d.dependedByClasses ++ [nm],
                 couplingIn := d.couplingIn + 1 } := by
      unfold incIn
      rw [hget]
    have hs : ((mapPut m dep
        { d with dependedByClasses := d.dependedByClasses ++ [nm],
                 couplingIn := d.couplingIn + 1 }).map
          (fun e => e.2.couplingIn)).sum + d.couplingIn
        = (m.map (fun e => e.2.couplingIn)).sum + (d.couplingIn + 1) :=
      sumBy_mapPut (fun c => c.couplingIn) m dep
        { d with dependedByClasses := d.dependedByClasses ++ [nm],
                 couplingIn := d.couplingIn + 1 } d hget
    rw [hstep]
    unfold sumIn
    omega

theorem pass3Pres_incIn (m2 m : List (String × ClassInfo)) (dep nm : String)
    (hp : pass3Pres m2 m) : pass3Pres m2 (incIn m dep nm) := by
  unfold incIn
  cases hget : mapGet? m dep with
  | none => exact hp
  | some d =>
    have hck : containsKey m dep = true := by
      unfold containsKey
      rw [hget]
      rfl
    refine ⟨by rw [keys_mapPut_of_containsKey m _ _ hck]; exact hp.1, fun k => ?_⟩
    by_cases hk : k = dep
    · subst hk
      rw [mapGet?_mapPut_self]
      have h2 := hp.2 k
      rw [hget] at h2
      simpa using h2
    · rw [mapGet?_mapPut_ne m dep k _ hk]
      exact hp.2 k

theorem innerAgg_pres_sum (m2 : List (String × ClassInfo)) (nm : String) :
    ∀ (deps : List String) (m : List (String × ClassInfo)),
      pass3Pres m2 m → (∀ d ∈ deps, d ∈ m2.map Prod.fst) →
      pass3Pres m2 (deps.foldl (fun m1 dep => incIn m1 dep nm) m) ∧
      sumIn (deps.foldl (fun m1 dep => incIn m1 dep nm) m)
        = sumIn m + deps.length := by
  intro deps
  induction deps with
  | nil => exact fun m hp _ => ⟨hp, rfl⟩
  | cons d deps ih =>
    intro m hp hsub
    have hdk : containsKey m d = true := by
      rw [containsKey_iff_mem_keys, hp.1]
      exact hsub d (List.mem_cons_self _ _)
    have hpres := pass3Pres_incIn m2 m d nm hp
    have hsum := sumIn_incIn m d nm hdk
    rw [List.foldl_cons]
    have hrec := ih (incIn m d nm) hpres
      (fun d1 hd1 => hsub d1 (List.mem_cons_of_mem _ hd1))
    refine ⟨hrec.1, ?_⟩
    rw [hrec.2, hsum, List.length_cons]
    omega

/-- The number of dependencies credited by pass 3 when it visits key `k`. -/
def depsLenAt (m2 : List (String × ClassInfo)) (k : String) : Nat :=
  ((mapGet? m2 k).map (fun c => c.dependsOn.length)).getD 0

theorem aggStep_pres_sum (m2 : List (String × ClassInfo))
    (hsub : ∀ e ∈ m2, ∀ d ∈ e.2.dependsOn, d ∈ m2.map Prod.fst)
    (m : List (String × ClassInfo)) (k : String) (hp : pass3Pres m2 m) :
    pass3Pres m2 (aggStep m k) ∧
      sumIn (aggStep m k) = sumIn m + depsLenAt m2 k := by
  cases hget : mapGet? m k with
  | none =>
    have hstep : aggStep m k = m := by
      unfold aggStep
      rw [hget]
    have h2 := (hp.2 k).1
    rw [hget] at h2
    cases hget2 : mapGet? m2 k with
    | none =>
      have hdl : depsLenAt m2 k = 0 := by
        unfold depsLenAt
        rw [hget2]
        rfl
      rw [hstep, hdl]
      exact ⟨hp, rfl⟩
    | some c2 =>
      rw [hget2] at h2
      simp at h2
  | some ci =>
    have hstep : aggStep m k
        = ci.dependsOn.foldl (fun m1 dep => incIn m1 dep ci.className) m := by
      unfold aggStep
      rw [hget]
    have h2 := (hp.2 k).1
    rw [hget] at h2
    cases hget2 : mapGet? m2 k with
    | none =>
      rw [hget2] at h2
      simp at h2
    | some c2 =>
      rw [hget2] at h2
      have hdeps : ci.dependsOn = c2.dependsOn := by
        simpa using h2
      have hc2mem : (k, c2) ∈ m2 := mapGet?_eq_some_mem m2 k c2 hget2
      have hdl : depsLenAt m2 k = c2.dependsOn.length := by
        unfold depsLenAt
        rw [hget2]
        rfl
      have hrec := innerAgg_pres_sum m2 ci.className ci.dependsOn m hp
        (by rw [hdeps]; exact hsub (k, c2) hc2mem)
      rw [hstep]
      refine ⟨hrec.1, ?_⟩
      rw [hrec.2, hdl, hdeps]

theorem outerAgg_pres_sum (m2 : List (String × ClassInfo))
    (hsub : ∀ e ∈ m2, ∀ d ∈ e.2.dependsOn, d ∈ m2.map Prod.fst) :
    ∀ (ks : List String) (m : List (String × ClassInfo)), pass3Pres m2 m →
      pass3Pres m2 (ks.foldl aggStep m) ∧
      sumIn (ks.foldl aggStep m) = sumIn m + (ks.map (depsLenAt m2)).sum := by
  intro ks
  induction ks with
  | nil => exact fun m hp => ⟨hp, rfl⟩
  | cons k ks ih =>
    intro m hp
    rw [List.foldl_cons]
    have hstep := aggStep_pres_sum m2 hsub m k hp
    have hrec := ih (aggStep m k) hstep.1
    refine ⟨hrec.1, ?_⟩
    rw [hrec.2, hstep.2, List.map_cons, List.sum_cons]
    omega

theorem pass3_pres_sum (m2 : List (String × ClassInfo))
    (hsub : ∀ e ∈ m2, ∀ d ∈ e.2.dependsOn, d ∈ m2.map Prod.fst) :
    pass3Pres m2 (pass3 m2) ∧
    sumIn (pass3 m2) = sumIn m2
      + (((entryIterOrder m2).map Prod.fst).map (depsLenAt m2)).sum :=
  outerAgg_pres_sum m2 hsub ((entryIterOrder m2).map Prod.fst) m2
    (pass3Pres_refl m2)

theorem sum_depsLenAt_keys (m : List (String × ClassInfo))
    (hnd : (m.map Prod.fst).Nodup) :
    ((m.map Prod.fst).map (depsLenAt m)).sum
      = (m.map (fun e => e.2.dependsOn.length)).sum := by
  induction m with
  | nil => rfl
  | cons e0 rest ih =>
    obtain ⟨k0, v0⟩ := e0
    rw [List.map_cons, List.nodup_cons] at hnd
    rw [List.map_cons, List.map_cons, List.sum_cons, List.map_cons, List.sum_cons]
    have hhead : depsLenAt ((k0, v0) :: rest) k0 = v0.dependsOn.length := by
      unfold depsLenAt
      simp [mapGet?]
    have htail : (rest.map Prod.fst).map (depsLenAt ((k0, v0) :: rest))
        = (rest.map Prod.fst).map (depsLenAt rest) := by
      refine List.map_congr_left (fun k hk => ?_)
      have hne : k0 ≠ k := fun hkk => hnd.1 (hkk ▸ hk)
      unfold depsLenAt
      simp only [mapGet?, if_neg hne]
    rw [hhead, htail, ih hnd.2]

/-- The class records in the registry's `HashMap.values()` iteration order
after aggregation (pass 3), i.e. the list that `analyzeProject` sorts. -/
def registryValuesIter (files : List JFile) : List ClassInfo :=
  (entryIterOrder (pass3 (pass2 files (buildClassMap files)))).map Prod.snd

theorem sortClasses_perm (l : List ClassInfo) : (sortClasses l).Perm l := by
  have h1 : (l.enum.insertionSort sortRel).Perm l.enum :=
    List.perm_insertionSort sortRel l.enum
  have h2 := h1.map Prod.snd
  rw [List.enum_map_snd] at h2
  exact h2

theorem analyzeProject_classes_eq (dirName absPath : String)
    (pom : PomOutcome) (files : List JFile) :
    (analyzeProject dirName absPath pom files).classes
      = sortClasses (registryValuesIter files) := rfl

/-- Total number of (class, dependency) pairs stored in the registry. -/
def sumDepsLen (m : List (String × ClassInfo)) : Nat :=
  (m.map (fun e => e.2.dependsOn.length)).sum

theorem pass2_facts (files : List JFile) :
    (pass2 files (buildClassMap files)).map Prod.fst
        = (buildClassMap files).map Prod.fst ∧
      depsInvariant ((buildClassMap files).map Prod.fst)
        (pass2 files (buildClassMap files)) := by
  refine pass2_keys_invariant files _ _ rfl (fun e he => ?_)
  obtain ⟨hdep, hout, hin⟩ := buildClassMap_entries files e he
  refine ⟨by rw [hdep, hout]; rfl, hin, fun d hd => ?_⟩
  rw [hdep] at hd
  cases hd

theorem sumIn_eq_zero (m : List (String × ClassInfo))
    (h : ∀ e ∈ m, e.2.couplingIn = 0) : sumIn m = 0 := by
  unfold sumIn
  rw [List.sum_eq_zero]
  intro x hx
  rcases List.mem_map.mp hx with ⟨e, he, hex⟩
  rw [← hex]
  exact h e he

theorem pass3_facts (files : List JFile) :
    pass3Pres (pass2 files (buildClassMap files))
        (pass3 (pass2 files (buildClassMap files))) ∧
      sumIn (pass3 (pass2 files (buildClassMap files)))
        = sumDepsLen (pass2 files (buildClassMap files)) := by
  obtain ⟨hkeys, hinv⟩ := pass2_facts files
  have hnd2 : ((pass2 files (buildClassMap files)).map Prod.fst).Nodup := by
    rw [hkeys]
    exact nodup_keys_buildClassMap files
  have hsub : ∀ e ∈ pass2 files (buildClassMap files),
      ∀ d ∈ e.2.dependsOn,
        d ∈ (pass2 files (buildClassMap files)).map Prod.fst := by
    intro e he d hd
    rw [hkeys]
    exact (hinv e he).2.2 d hd
  obtain ⟨hpres, hsum⟩ := pass3_pres_sum (pass2 files (buildClassMap files)) hsub
  refine ⟨hpres, ?_⟩
  have hzero : sumIn (pass2 files (buildClassMap files)) = 0 :=
    sumIn_eq_zero _ (fun e he => (hinv e he).2.1)
  have hpermkeys :
      (((entryIterOrder (pass2 files (buildClassMap files))).map Prod.fst).map
          (depsLenAt (pass2 files (buildClassMap files)))).sum
        = (((pass2 files (buildClassMap files)).map Prod.fst).map
            (depsLenAt (pass2 files (buildClassMap files)))).sum :=
    (((entryIterOrder_perm (pass2 files (buildClassMap files))).map
        Prod.fst).map _).sum_eq
  rw [hsum, hzero, hpermkeys, sum_depsLenAt_keys _ hnd2]
  exact Nat.zero_add _

theorem pass3_entries_facts (files : List JFile) :
    ∀ e ∈ pass3 (pass2 files (buildClassMap files)),
      e.2.couplingOut = e.2.dependsOn.length ∧
      ∀ d ∈ e.2.dependsOn, d ∈ (buildClassMap files).map Prod.fst := by
  obtain ⟨hkeys2, hinv⟩ := pass2_facts files
  obtain ⟨hpres, _⟩ := pass3_facts files
  intro e he
  have hnd3 : ((pass3 (pass2 files (buildClassMap files))).map Prod.fst).Nodup := by
    rw [hpres.1, hkeys2]
    exact nodup_keys_buildClassMap files
  have hget3 : mapGet? (pass3 (pass2 files (buildClassMap files))) e.1 = some e.2 :=
    mem_mapGet?_of_nodup _ e hnd3 he
  have hdep := (hpres.2 e.1).1
  have hout := (hpres.2 e.1).2.1
  rw [hget3] at hdep hout
  cases hget2 : mapGet? (pass2 files (buildClassMap files)) e.1 with
  | none =>
    rw [hget2] at hdep
    simp at hdep
  | some c2 =>
    rw [hget2] at hdep hout
    have hd : e.2.dependsOn = c2.dependsOn := by simpa using hdep
    have ho : e.2.couplingOut = c2.couplingOut := by simpa using hout
    have hc2 := hinv (e.1, c2) (mapGet?_eq_some_mem _ _ _ hget2)
    refine ⟨by rw [ho, hd]; exact hc2.1, fun d hdd => ?_⟩
    rw [hd] at hdd
    exact hc2.2.2 d hdd

theorem analyzeProject_classes_perm (dirName absPath : String)
    (pom : PomOutcome) (files : List JFile) :
    ((analyzeProject dirName absPath pom files).classes).Perm
      ((pass3 (pass2 files (buildClassMap files))).map Prod.snd) := by
  rw [analyzeProject_classes_eq]
  exact (sortClasses_perm (registryValuesIter files)).trans
    ((entryIterOrder_perm (pass3 (pass2 files (buildClassMap files)))).map
      Prod.snd)

theorem depsLenAt_congr (m2 m3 : List (String × ClassInfo)) (k : String)
    (h : (mapGet? m3 k).map ClassInfo.dependsOn
          = (mapGet? m2 k).map ClassInfo.dependsOn) :
    depsLenAt m3 k = depsLenAt m2 k := by
  unfold depsLenAt
  cases h3 : mapGet? m3 k with
  | none =>
    cases h2 : mapGet? m2 k with
    | none => rfl
    | some c2 =>
      rw [h3, h2] at h
      simp at h
  | some c3 =>
    cases h2 : mapGet? m2 k with
    | none =>
      rw [h3, h2] at h
      simp at h
    | some c2 =>
      rw [h3, h2] at h
      have hd : c3.dependsOn = c2.dependsOn := by simpa using h
      simp [hd]

theorem sumDepsLen_pass3 (files : List JFile) :
    sumDepsLen (pass3 (pass2 files (buildClassMap files)))
      = sumDepsLen (pass2 files (buildClassMap files)) := by
  obtain ⟨hkeys2, _⟩ := pass2_facts files
  obtain ⟨hpres, _⟩ := pass3_facts files
  have hnd2 : ((pass2 files (buildClassMap files)).map Prod.fst).Nodup := by
    rw [hkeys2]
    exact nodup_keys_buildClassMap files
  have hnd3 : ((pass3 (pass2 files (buildClassMap files))).map Prod.fst).Nodup := by
    rw [hpres.1]
    exact hnd2
  have h3 := sum_depsLenAt_keys _ hnd3
  have h2 := sum_depsLenAt_keys _ hnd2
  unfold sumDepsLen
  rw [← h3, ← h2, hpres.1]
  refine congrArg List.sum (List.map_congr_left (fun k _ => ?_))
  exact depsLenAt_congr _ _ k (hpres.2 k).1

/-- C1: Edge symmetry after aggregation: over the classes of every run of
the engine, the sum of `couplingOut` equals the total number of
(class, dependency) pairs (the summed sizes of the `dependsOn` lists), and
the sum of `couplingIn`, incremented once per incoming edge in the
aggregation pass, equals the same total. -/
theorem edge_symmetry_total_pairs (dirName absPath : String)
    (pom : PomOutcome) (files : List JFile) :
    ((analyzeProject dirName absPath pom files).classes.map
        (fun c => c.couplingOut)).sum
      = ((analyzeProject dirName absPath pom files).classes.map
          (fun c => c.dependsOn.length)).sum ∧
    ((analyzeProject dirName absPath pom files).classes.map
        (fun c => c.couplingIn)).sum
      = ((analyzeProject dirName absPath pom files).classes.map
          (fun c => c.dependsOn.length)).sum := by
  have hperm := analyzeProject_classes_perm dirName absPath pom files
  have hmemfact : ∀ c ∈ (analyzeProject dirName absPath pom files).classes,
      c.couplingOut = c.dependsOn.length := by
    intro c hc
    have hc3 := hperm.mem_iff.mp hc
    rcases List.mem_map.mp hc3 with ⟨e, he, hec⟩
    rw [← hec]
    exact (pass3_entries_facts files e he).1
  constructor
  · exact congrArg List.sum (List.map_congr_left hmemfact)
  · have hin : ((analyzeProject dirName absPath pom files).classes.map
          (fun c => c.couplingIn)).sum
        = sumIn (pass3 (pass2 files (buildClassMap files))) := by
      have := (hperm.map (fun c => c.couplingIn)).sum_eq
      rw [this, List.map_map]
      rfl
    have hlen : ((analyzeProject dirName absPath pom files).classes.map
          (fun c => c.dependsOn.length)).sum
        = sumDepsLen (pass3 (pass2 files (buildClassMap files))) := by
      have := (hperm.map (fun c => c.dependsOn.length)).sum_eq
      rw [this, List.map_map]
      rfl
    rw [hin, hlen, (pass3_facts files).2, sumDepsLen_pass3]

set_option maxHeartbeats 2000000 in
/-- C5: `highlyCoupledClasses` equals the number of classes among the first
`ceil(totalClasses * 0.2)` positions of the coupling-sorted sequence whose
total coupling is strictly positive, and is therefore bounded by
`ceil(totalClasses * 0.2)` (and trivially nonnegative). -/
theorem highly_coupled_top_fifth_bound (dirName absPath : String)
    (pom : PomOutcome) (files : List JFile) :
    (analyzeProject dirName absPath pom files).highlyCoupledClasses
      = ((analyzeProject dirName absPath pom files).classes.take
          (ceilTopFifth (analyzeProject dirName absPath pom files).totalClasses)).countP
            (fun c => 0 < getTotalCoupling c) ∧
    (analyzeProject dirName absPath pom files).highlyCoupledClasses
      ≤ ceilTopFifth (analyzeProject dirName absPath pom files).totalClasses := by
  constructor
  · rfl
  · show ((sortClasses (registryValuesIter files)).take
        (ceilTopFifth (sortClasses (registryValuesIter files)).length)).countP
          (fun c => 0 < getTotalCoupling c)
      ≤ ceilTopFifth (sortClasses (registryValuesIter files)).length
    refine le_trans (List.countP_le_length _) ?_
    rw [List.length_take]
    exact min_le_left _ _

set_option maxHeartbeats 2000000 in
/-- C6 counterexample: on an empty project (zero eligible files) the engine
does not report a terminal failure; it returns a normal `AnalysisResult`
with vacuous statistics (and the CLI serializes it and exits 0). -/
theorem empty_project_vacuous_result_cex :
    analyzeProject "project" "/project" PomOutcome.absent []
      = { projectName := "project", projectPath := "/project",
          projectGroupId := none, totalClasses := 0, averageCoupling := 0,
          maxCoupling := 0, highlyCoupledClasses := 0, classes := [] } := by
  rfl

/-- C6 (amended): when the project contains zero eligible source files,
`analyzeProject` silently returns a `ProjectAnalysis` with vacuous
statistics (`totalClasses = 0`, `averageCoupling = 0`, `maxCoupling = 0`,
`highlyCoupledClasses = 0`, empty class list); no "no analyzable files"
condition is signalled to the caller. -/
theorem empty_project_returns_vacuous_stats (dirName absPath : String)
    (pom : PomOutcome) :
    (analyzeProject dirName absPath pom []).totalClasses = 0 ∧
    (analyzeProject dirName absPath pom []).averageCoupling = 0 ∧
    (analyzeProject dirName absPath pom []).maxCoupling = 0 ∧
    (analyzeProject dirName absPath pom []).highlyCoupledClasses = 0 ∧
    (analyzeProject dirName absPath pom []).classes = [] :=
  ⟨rfl, rfl, rfl, rfl, rfl⟩

/-- C9 counterexample: with an unreadable manifest the run keeps the
directory name, but the absent group id is a null (`none`), not the string
`"unknown"`. -/
theorem group_id_not_unknown_cex :
    (analyzeProject "project" "/project" PomOutcome.unreadable []).projectName
        = "project" ∧
    (analyzeProject "project" "/project" PomOutcome.unreadable []).projectGroupId
        = none ∧
    (analyzeProject "project" "/project" PomOutcome.unreadable []).projectGroupId
        ≠ some "unknown" :=
  ⟨rfl, rfl, by decide⟩

/-- C9 (amended): when the manifest is absent or cannot be read, the run
still succeeds, `projectName` falls back to the project directory name and
`projectGroupId` stays null (it is omitted from the serialized output and
rendered as "N/A" by the UI, never as the string "unknown"); a manifest
that supplies no group id (own or parent) also leaves it null. -/
theorem manifest_fallback_name_and_null_group (dirName absPath : String)
    (files : List JFile) :
    (analyzeProject dirName absPath PomOutcome.unreadable files).projectName
        = dirName ∧
    (analyzeProject dirName absPath PomOutcome.unreadable files).projectGroupId
        = none ∧
    (analyzeProject dirName absPath PomOutcome.absent files).projectName
        = dirName ∧
    (analyzeProject dirName absPath PomOutcome.absent files).projectGroupId
        = none ∧
    ∀ (nm : Option String) (artifact : String),
      (analyzeProject dirName absPath
          (PomOutcome.parsed nm artifact none none) files).projectGroupId
        = none :=
  ⟨rfl, rfl, rfl, rfl, fun _ _ => rfl⟩

/-- The resolver algorithm exactly as claim C3 words it: after
normalization, return unresolved for names on the primitive/common-library
exclusion list; otherwise the name itself if it is a registry key; otherwise
`currentPackage + "." + name` if that is a registry key; otherwise the
first import in declaration order ending with `"." + name` that is a
registry key; otherwise unresolved. -/
def resolveTypeSpec (typeName currentPackage : String) (imports : List String)
    (m : List (String × α)) : Option String :=
  let t := normalizeTypeName typeName
  if isPrimitive t then none
  else if containsKey m t then some t
  else if containsKey m (currentPackage ++ "." ++ t) then
    some (currentPackage ++ "." ++ t)
  else
    imports.find? (fun imp => javaEndsWith imp ("." ++ t) && containsKey m imp)

/-- C3 counterexample: the code also excludes any name starting with
`java.` or `javax.` even when it is a registry key, so `resolveType`
disagrees with the claim's algorithm on the raw name `java.x.C` with a
registry containing `java.x.C`: the claim's algorithm resolves it at the
registry-key step, the code returns unresolved. -/
theorem resolver_prefix_exclusion_cex :
    resolveTypeSpec "java.x.C" "" ([] : List String) [("java.x.C", ())]
        = some "java.x.C" ∧
    resolveType "java.x.C" "" ([] : List String) [("java.x.C", ())]
        = none := by
  constructor
  · rfl
  · rfl

/-- The resolver algorithm as amended: the exclusion step also returns
unresolved for any name starting with `java.` or `javax.`, and the
package-qualification step tries the bare name when the current package is
empty. -/
def resolveTypeAmended (typeName currentPackage : String)
    (imports : List String) (m : List (String × α)) : Option String :=
  let t := normalizeTypeName typeName
  if isPrimitive t || javaStartsWith t "java." || javaStartsWith t "javax." then
    none
  else if containsKey m t then some t
  else
    let qualified :=
      if currentPackage.isEmpty then t else currentPackage ++ "." ++ t
    if containsKey m qualified then some qualified
    else
      imports.find? (fun imp => javaEndsWith imp ("." ++ t) && containsKey m imp)

/-- C3 (amended): `resolveType` follows the ordered first-match-wins
algorithm of the claim with two corrections: the exclusion step also drops
any name with a `java.`/`javax.` prefix, and with an empty current package
the package-qualification step tries the bare name rather than
`"." + name`. -/
theorem resolveType_matches_amended_spec {α : Type} (typeName currentPackage : String)
    (imports : List String) (m : List (String × α)) :
    resolveType typeName currentPackage imports m
      = resolveTypeAmended typeName currentPackage imports m := rfl

/-- C7: `calculateLCOM` equals `max(p - q, 0)` over the unordered method
pairs of the class's method-to-fields map, is 0 whenever at most one method
has recorded field-access data, and is never negative. -/
theorem lcom_max_formula (m : List (String × List String)) :
    calculateLCOM m = max ((lcomP m : Int) - lcomQ m) 0 ∧
    (m.length ≤ 1 → calculateLCOM m = 0) ∧
    0 ≤ calculateLCOM m := by
  unfold calculateLCOM
  by_cases h1 : m.length ≤ 1
  · have hpairs : listPairs m = [] := by
      cases m with
      | nil => rfl
      | cons x xs =>
        cases xs with
        | nil => rfl
        | cons y ys => simp at h1
    have hp : lcomP m = 0 := by
      unfold lcomP
      rw [hpairs]
      rfl
    have hq : lcomQ m = 0 := by
      unfold lcomQ
      rw [hpairs]
      rfl
    rw [if_pos h1, hp, hq]
    exact ⟨by simp, fun _ => rfl, le_refl 0⟩
  · rw [if_neg h1]
    refine ⟨?_, fun hcontra => absurd hcontra h1, ?_⟩
    · by_cases h2 : lcomQ m < lcomP m
      · rw [if_pos h2, max_eq_left (by omega)]
      · rw [if_neg h2, max_eq_right (by omega)]
    · by_cases h2 : lcomQ m < lcomP m
      · rw [if_pos h2]
        omega
      · rw [if_neg h2]

/-- C10: every fully-qualified name in the declaring file's import list that
is a registry key ends up in the dependency set computed for each of the
file's classes, whether or not it is otherwise referenced. -/
theorem internal_imports_always_in_dependsOn (f : JFile) (c : JClass)
    (m : List (String × ClassInfo)) (imp : String)
    (himp : imp ∈ f.imports) (hkey : containsKey m imp = true) :
    imp ∈ collectDeps f c m := by
  rw [mem_collectDeps_iff, mem_collectDepsSetList]
  exact Or.inl ⟨himp, hkey⟩

/-- A minimal class declaration with the given simple name. -/
def exClass (nm : String) : JClass where
  name := nm
  isInterface := false
  isAbstract := false
  extendedTypes := []
  implementedTypes := []
  fields := []
  methods := []

/-- A minimal void method with the given body object-creation names. -/
def exMethodNew (ctors : List String) : JMethod where
  name := "m"
  returnType := "void"
  paramTypes := []
  fieldAccesses := []
  methodCalls := []
  constructedTypes := ctors

/-- `p.A`, whose only reference to `p.B` is the object creation `new B()`
inside its method body. -/
def cexNewFileA : JFile where
  path := "A.java"
  packageName := "p"
  imports := []
  classes := [{ exClass "A" with methods := [exMethodNew ["B"]] }]

/-- `p.B`, an internal class with no members. -/
def cexNewFileB : JFile where
  path := "B.java"
  packageName := "p"
  imports := []
  classes := [exClass "B"]

/-- C2 counterexample: `B` resolves to the internal registry key `p.B`, and
the object creation `new B()` is the only reference from `p.A` to it, yet
`p.A.dependsOn` comes out empty: the engine never inspects object-creation
expressions. -/
theorem objcreation_not_collected_cex :
    resolveType "B" "p" ([] : List String)
        (buildClassMap [cexNewFileA, cexNewFileB]) = some "p.B" ∧
    (analyzeProject "p" "/p" PomOutcome.absent
        [cexNewFileA, cexNewFileB]).classes.map
          (fun c => (c.className, c.dependsOn))
      = [("p.A", []), ("p.B", [])] := by
  constructor
  · rfl
  · rfl

/-- C2 (amended): a name is in the dependency set computed for a class
exactly when it is an internal import of the declaring file, or the
resolver maps one of the class's supertypes, implemented interfaces, field
types, or method return/parameter types to it as a registry key; unresolved
and external references are dropped without error, and object-creation
expressions in method bodies are not collected. -/
theorem dependsOn_membership_spec (f : JFile) (c : JClass)
    (m : List (String × ClassInfo)) (a : String) :
    a ∈ collectDeps f c m ↔
      (a ∈ f.imports ∧ containsKey m a = true) ∨
      (∃ t ∈ c.extendedTypes, resolvesToKey f m t a) ∨
      (∃ t ∈ c.implementedTypes, resolvesToKey f m t a) ∨
      (∃ t ∈ c.fields, resolvesToKey f m t a) ∨
      (∃ mth ∈ c.methods, resolvesToKey f m mth.returnType a ∨
        ∃ t ∈ mth.paramTypes, resolvesToKey f m t a) :=
  (mem_collectDeps_iff f c m a).trans (mem_collectDepsSetList f c m a)

/-- C7 witness: a map with a single recorded method has LCOM 0. -/
theorem lcom_max_formula_witness : calculateLCOM [("m1", ["f1"])] = 0 :=
  (lcom_max_formula [("m1", ["f1"])]).2.1 (by decide)

/-- A file importing the internal name `p.B` without referencing it. -/
def exImportFile : JFile where
  path := "A.java"
  packageName := "p"
  imports := ["p.B"]
  classes := [exClass "A"]

/-- C10 witness: the unreferenced internal import `p.B` appears in the
dependency set computed for `p.A`. -/
theorem internal_imports_always_in_dependsOn_witness :
    "p.B" ∈ collectDeps exImportFile (exClass "A")
      [("p.B", initClassInfo "B.java" "p" (exClass "B"))] :=
  internal_imports_always_in_dependsOn exImportFile (exClass "A")
    [("p.B", initClassInfo "B.java" "p" (exClass "B"))] "p.B"
    (by decide) (by decide)

/-- A class extending the external (non-registry) type `External`. -/
def cexExtClass : JClass :=
  { exClass "A" with extendedTypes := ["External"] }

/-- The file declaring `p.A extends External`. -/
def cexExtFile : JFile where
  path := "A.java"
  packageName := "p"
  imports := []
  classes := [cexExtClass]

/-- C8: a name that is not a registry key (such as an external supertype)
never appears in any class's `dependsOn`; `calculateDIT` is 1 for any file
whose first class has a non-empty extends list, no matter whether the
supertype is internal; and `calculateDIT` only ever returns 0 or 1. -/
theorem external_supertype_excluded_dit_one :
    (∀ (dirName absPath : String) (pom : PomOutcome) (files : List JFile)
        (c : ClassInfo) (t : String),
      c ∈ (analyzeProject dirName absPath pom files).classes →
      containsKey (buildClassMap files) t = false →
      t ∉ c.dependsOn) ∧
    (∀ (cs : List JClass) (c0 : JClass), cs.head? = some c0 →
      c0.extendedTypes ≠ [] → calculateDIT cs = 1) ∧
    (∀ cs : List JClass, calculateDIT cs = 0 ∨ calculateDIT cs = 1) := by
  refine ⟨?_, ?_, ?_⟩
  · intro dirName absPath pom files c t hc hkey ht
    have hperm := analyzeProject_classes_perm dirName absPath pom files
    rcases List.mem_map.mp (hperm.mem_iff.mp hc) with ⟨e, he, hec⟩
    have hmem : t ∈ e.2.dependsOn := by
      rw [hec]
      exact ht
    have hfact := (pass3_entries_facts files e he).2 t hmem
    have hck := (containsKey_iff_mem_keys (buildClassMap files) t).mpr hfact
    rw [hkey] at hck
    cases hck
  · intro cs c0 hhead hne
    unfold calculateDIT
    rw [hhead]
    show (if c0.extendedTypes.isEmpty then 0 else 1) = 1
    cases hext : c0.extendedTypes with
    | nil => exact absurd hext hne
    | cons t ts => rfl
  · intro cs
    cases cs with
    | nil => exact Or.inl rfl
    | cons c0 rest =>
      show (if c0.extendedTypes.isEmpty then 0 else 1) = 0 ∨
        (if c0.extendedTypes.isEmpty then 0 else 1) = 1
      by_cases h : c0.extendedTypes.isEmpty = true
      · rw [if_pos h]
        exact Or.inl rfl
      · rw [if_neg h]
        exact Or.inr rfl

/-- C8 witness: for the concrete project `{p.A extends External}`, the
external supertype is not in `p.A.dependsOn`, while its DIT is 1. -/
theorem external_supertype_excluded_dit_one_witness :
    "External" ∉ (initClassInfo "A.java" "p" cexExtClass).dependsOn ∧
    calculateDIT [cexExtClass] = 1 := by
  have h := external_supertype_excluded_dit_one
  exact ⟨h.1 "proj" "/p" PomOutcome.absent [cexExtFile]
      (initClassInfo "A.java" "p" cexExtClass) "External" (by decide) (by decide),
    h.2.1 [cexExtClass] cexExtClass rfl (by decide)⟩

theorem sortClasses_tags_nodup (l : List ClassInfo) :
    ((l.enum.insertionSort sortRel).map Prod.fst).Nodup := by
  have hperm := (List.perm_insertionSort sortRel l.enum).map Prod.fst
  rw [List.enum_map_fst] at hperm
  exact hperm.symm.nodup (List.nodup_range _)

/-- Default-package file declaring only class `B` (discovered first). -/
def cexTieFileB : JFile where
  path := "B.java"
  packageName := ""
  imports := []
  classes := [exClass "B"]

/-- Default-package file declaring only class `A` (discovered second). -/
def cexTieFileA : JFile where
  path := "A.java"
  packageName := ""
  imports := []
  classes := [exClass "A"]

/-- C4 counterexample: the two classes are discovered in the order `B`, `A`
and have equal (zero) total coupling, yet the output lists `A` before `B`:
the stable sort runs over the registry `HashMap`'s iteration order (here
bucket 1 for `A`, bucket 2 for `B`), not over discovery order. -/
theorem sort_ties_not_discovery_order_cex :
    (filePairs [cexTieFileB, cexTieFileA]).map (fun p => p.2.name)
        = ["B", "A"] ∧
    (analyzeProject "p" "/p" PomOutcome.absent
        [cexTieFileB, cexTieFileA]).classes.map (fun c => c.simpleName)
        = ["A", "B"] ∧
    (analyzeProject "p" "/p" PomOutcome.absent
        [cexTieFileB, cexTieFileA]).classes.map getTotalCoupling = [0, 0] :=
  ⟨rfl, rfl, rfl⟩

/-- C4 (amended): the output classes are sorted descending by total
coupling by a stable sort applied to the registry's `HashMap.values()`
iteration order: the output is a permutation of that order, and any two
classes with equal total coupling appear in the same relative order as in
that iteration order (which need not be discovery order). -/
theorem classes_sorted_stable_hash_order (dirName absPath : String)
    (pom : PomOutcome) (files : List JFile) :
    ((analyzeProject dirName absPath pom files).classes).Sorted
        (fun a b => getTotalCoupling b ≤ getTotalCoupling a) ∧
    ((analyzeProject dirName absPath pom files).classes).Perm
        (registryValuesIter files) ∧
    ∀ (i j : Nat) (a b : ClassInfo), i < j →
      (analyzeProject dirName absPath pom files).classes[i]? = some a →
      (analyzeProject dirName absPath pom files).classes[j]? = some b →
      getTotalCoupling a = getTotalCoupling b →
      ∃ (n k : Nat), n < k ∧ (registryValuesIter files)[n]? = some a ∧
        (registryValuesIter files)[k]? = some b := by
  have hs : List.Sorted sortRel
      ((registryValuesIter files).enum.insertionSort sortRel) :=
    List.sorted_insertionSort sortRel (registryValuesIter files).enum
  have hcl : (analyzeProject dirName absPath pom files).classes
      = ((registryValuesIter files).enum.insertionSort sortRel).map Prod.snd :=
    rfl
  refine ⟨?_, sortClasses_perm (registryValuesIter files), ?_⟩
  · rw [hcl]
    refine List.pairwise_map.mpr (hs.imp ?_)
    intro p q hpq
    rcases hpq with hlt | ⟨heq, _⟩
    · exact le_of_lt hlt
    · exact le_of_eq heq.symm
  · intro i j a b hij hia hjb heq
    rw [hcl, List.getElem?_map] at hia hjb
    rcases Option.map_eq_some'.mp hia with ⟨p, hp, hpa⟩
    rcases Option.map_eq_some'.mp hjb with ⟨q, hq, hqb⟩
    rcases List.getElem?_eq_some.mp hp with ⟨hilt, hpi⟩
    rcases List.getElem?_eq_some.mp hq with ⟨hjlt, hqj⟩
    have hrel := (List.pairwise_iff_getElem.mp hs) i j hilt hjlt hij
    rw [hpi, hqj] at hrel
    have htotal : getTotalCoupling p.2 = getTotalCoupling q.2 := by
      rw [hpa, hqb, heq]
    have hidx : p.1 ≤ q.1 := by
      rcases hrel with hlt | ⟨_, hle⟩
      · omega
      · exact hle
    have hne : p.1 ≠ q.1 := by
      have hnd := sortClasses_tags_nodup (registryValuesIter files)
      have hpw := (List.pairwise_iff_getElem.mp
        (List.pairwise_map.mp hnd)) i j hilt hjlt hij
      rw [hpi, hqj] at hpw
      exact hpw
    have hpm : p ∈ (registryValuesIter files).enum :=
      (List.perm_insertionSort sortRel (registryValuesIter files).enum).subset
        (hpi ▸ List.getElem_mem hilt)
    have hqm : q ∈ (registryValuesIter files).enum :=
      (List.perm_insertionSort sortRel (registryValuesIter files).enum).subset
        (hqj ▸ List.getElem_mem hjlt)
    refine ⟨p.1, q.1, by omega, ?_, ?_⟩
    · rw [← hpa]
      exact List.mem_enum_iff_getElem?.mp hpm
    · rw [← hqb]
      exact List.mem_enum_iff_getElem?.mp hqm

/-- The registry record of the tie-example class `A` (unchanged by passes 2
and 3 because it has no dependencies). -/
def cexTieInfoA : ClassInfo := initClassInfo "A.java" "" (exClass "A")

/-- The registry record of the tie-example class `B`. -/
def cexTieInfoB : ClassInfo := initClassInfo "B.java" "" (exClass "B")

/-- C4 witness: on the concrete tie project, the equally-coupled classes
`A` (output position 0) and `B` (output position 1) occur in the registry
iteration order at positions in that same relative order. -/
theorem classes_sorted_stable_hash_order_witness :
    ∃ (n k : Nat), n < k ∧
      (registryValuesIter [cexTieFileB, cexTieFileA])[n]? = some cexTieInfoA ∧
      (registryValuesIter [cexTieFileB, cexTieFileA])[k]? = some cexTieInfoB :=
  (classes_sorted_stable_hash_order "p" "/p" PomOutcome.absent
      [cexTieFileB, cexTieFileA]).2.2 0 1 cexTieInfoA cexTieInfoB
    (by decide) (by decide) (by decide) (by decide)
